/-
Verification development for the pyramid tile-addressing engine and the
concurrent decoder-handle cache of the pelican repository.

The Lean definitions below are shallow embeddings of the Python source:
  * `SourceManager.*`  embeds `large_image_server/source_manager.py`
    (`SourceManager.get_source`, `close_source`, `clear_cache`,
    `_resolve_image_path`).  The cache `OrderedDict` is embedded as a list
    of keys ordered from least-recently-used (front) to most-recently-used
    (back); the cached value objects are irrelevant to the claims and are
    dropped.  Operations that run under the cache-wide `self._lock` are
    embedded as atomic steps, so a concurrent execution is any
    interleaving, i.e. any sequence, of atomic steps.
  * `FrameIndexer.*`, `PyramidGeometry.*`, `TileAssembler.*` embed
    `large_image_source_bioformats/__init__.py`
    (`_initializeMetadata`, `_computeLevels`, `__init__`, `getTile`).
  * `LevelMapper.*` embeds `large_image_server/routes/deepzoom.py`
    (`get_dzi_tile`).
  * `PathResolve.*` embeds `SourceManager._resolve_image_path` together
    with the `pathlib` joining semantics it relies on.
Python's exact integer arithmetic is embedded as `Nat`/`Int`; the
transcendental float expressions `math.log`/`math.log2` are embedded by
their exact real counterparts `Real.log` / `Real.logb`, and definitions
named `spec...` restate the specification's own formulas for comparison
with the embedded code.
-/
import Mathlib

namespace SourceManager

/-- Embeds the eviction loop of `SourceManager.get_source`
(`source_manager.py` lines 163-164):
`while len(self._sources) >= self._max_sources: self._sources.popitem(last=False)`.
`popitem(last=False)` removes the head of the `OrderedDict`, i.e. the
least-recently-used key, which is the front of the embedded list. -/
def evictOldest (cap : Nat) : List Nat → List Nat
  | [] => []
  | k :: rest =>
    if cap ≤ rest.length + 1 then evictOldest cap rest else k :: rest

/-- Embeds the cache-hit path of `get_source` (lines 136-141):
`self._sources.move_to_end(cache_key)` moves the key to the
most-recently-used end; the subsequent re-assignment of the same key does
not change its position. -/
def touch (c : List Nat) (key : Nat) : List Nat :=
  c.erase key ++ [key]

/-- Embeds the body of `get_source` under `self._lock` (lines 134-168) for
an unstyled request: on a hit, promote the key; on a miss, open a source,
evict while at capacity, and insert the key at the most-recently-used
end. -/
def acquire (cap : Nat) (c : List Nat) (key : Nat) : List Nat :=
  if key ∈ c then touch c key else evictOldest cap c ++ [key]

/-- One atomic cache operation: `get_source` (styled requests set
`cache_key = None` at line 132 and leave the cache untouched),
`close_source` (line 216: `del self._sources[cache_key]`), or
`clear_cache` (line 228: `self._sources.clear()`). -/
inductive Op where
  | acquireKey (key : Nat) (styled : Bool)
  | closeKey (key : Nat)
  | clearAll

/-- Effect of one operation on the cache key list. -/
def step (cap : Nat) (c : List Nat) : Op → List Nat
  | .acquireKey k styled => if styled then c else acquire cap c k
  | .closeKey k => c.erase k
  | .clearAll => []

/-- A sequence of operations, applied in order. -/
def run (cap : Nat) (c : List Nat) (ops : List Op) : List Nat :=
  ops.foldl (step cap) c

/-- The cache together with the number of calls to the backend
`large_image.open` (`get_source` line 156).  Because the whole
check/open/insert body of `get_source` runs under `self._lock`
(line 134), each call is one atomic step. -/
structure MState where
  cache : List Nat
  opens : Nat

/-- One serialized `get_source` call for an unstyled key, counting backend
opens: a hit promotes the key and opens nothing, a miss opens exactly one
source and inserts the key. -/
def acquireCount (cap : Nat) (s : MState) (key : Nat) : MState :=
  if key ∈ s.cache then { s with cache := touch s.cache key }
  else { cache := evictOldest cap s.cache ++ [key], opens := s.opens + 1 }

/-- N concurrent `get_source` calls on the same key: the cache-wide lock
serializes them into N consecutive atomic steps. -/
def runAcquires (cap : Nat) (s : MState) (key : Nat) : Nat → MState
  | 0 => s
  | n + 1 => runAcquires cap (acquireCount cap s key) key n

/-- `get_source` with a fallible backend open (lines 155-158): when
`large_image.open` raises, the `TileSourceError` propagates before the
cache insertion at line 166, so the cache is left unchanged and the
broken source is never cached. -/
def getSourceFallible (cap : Nat) (c : List Nat) (key : Nat)
    (openOk : Bool) : Except Unit (List Nat) :=
  if key ∈ c then .ok (touch c key)
  else if openOk then .ok (evictOldest cap c ++ [key])
  else .error ()

end SourceManager

namespace FrameIndexer

/-- Embeds the dimension normalization of `_initializeMetadata`
(`large_image_source_bioformats/__init__.py` lines 466-468): a reported
`sizeC`/`sizeZ`/`sizeT` that is not an integer `≥ 1` is replaced by 1. -/
def normalizeDim (n : Int) : Nat :=
  if n < 1 then 1 else n.toNat

/-- Embeds the frame decomposition of `getTile` (lines 568-570):
`fc = frame % sizeC`, `fz = (frame // sizeC) % sizeZ`,
`ft = (frame // sizeC // sizeZ) % sizeT`. -/
def unflattenFrame (sizeC sizeZ sizeT f : Nat) : Nat × Nat × Nat :=
  (f % sizeC, f / sizeC % sizeZ, f / sizeC / sizeZ % sizeT)

/-- The inverse composition `f = c + sizeC*(z + sizeZ*t)`; this is the
frame enumeration order of `getMetadata` (lines 548-551), which lists
frames with `c` fastest and `t` slowest. -/
def flattenFrame (sizeC sizeZ : Nat) (c z t : Nat) : Nat :=
  c + sizeC * (z + sizeZ * t)

end FrameIndexer

namespace PyramidGeometry

/-- Embeds `_computeLevels` (lines 502-506) over exact reals:
`levels = int(ceil(max(log(sizeX/tileWidth), log(sizeY/tileHeight)) / log(2))) + 1`. -/
noncomputable def codeLevels (sizeX sizeY tileWidth tileHeight : Nat) : Int :=
  ⌈max (Real.log ((sizeX : Real) / tileWidth))
      (Real.log ((sizeY : Real) / tileHeight)) / Real.log 2⌉ + 1

/-- The specification's formula §3, as written:
`levels = ceil(log2(max(sizeX/tileWidth, sizeY/tileHeight))) + 1`,
stated with the computable ceiling-log `Int.clog` over rationals so that
it can be evaluated on concrete geometries. -/
def specLevels (sizeX sizeY tileWidth tileHeight : Nat) : Int :=
  Int.clog 2 (max ((sizeX : Rat) / tileWidth) ((sizeY : Rat) / tileHeight)) + 1

/-- Errors raised by `BioformatsFileTileSource.__init__`. -/
inductive InitError where
  | invalidLevels
  | invalidSize
  | readFailure
  deriving DecidableEq

/-- Embeds the validation sequence of `__init__` (lines 410-421): reject
`levels < 1`, then reject `sizeX <= 0 or sizeY <= 0`, then require one
successful `getTile(0, 0, self.levels - 1)` read; any failure raises
`TileSourceError`, so no source object is created.  `readOk` abstracts
whether the decoder can read the tile at a given `(x, y, z)` address. -/
def initSource (sizeX sizeY levels : Int)
    (readOk : Nat × Nat × Nat → Bool) : Except InitError Unit :=
  if levels < 1 then .error .invalidLevels
  else if sizeX ≤ 0 ∨ sizeY ≤ 0 then .error .invalidSize
  else if readOk (0, 0, levels.toNat - 1) then .ok ()
  else .error .readFailure

end PyramidGeometry

namespace LevelMapper

/-- Embeds `get_dzi_tile` (`deepzoom.py` lines 155-156) over exact reals:
`dz_max_level = math.ceil(math.log2(max_dim)) if max_dim > 0 else 0`. -/
noncomputable def dzMaxLevelR (sizeX sizeY : Nat) : Int :=
  if 0 < max sizeX sizeY then ⌈Real.logb 2 ((max sizeX sizeY : Nat) : Real)⌉
  else 0

/-- The same quantity computed with the exact natural-number ceiling log,
`Nat.clog`. -/
def dzMaxLevel (sizeX sizeY : Nat) : Int :=
  if 0 < max sizeX sizeY then (Nat.clog 2 (max sizeX sizeY) : Int) else 0

/-- Embeds `level_offset = dz_max_level - (metadata['levels'] - 1)`
(line 159). -/
def levelOffset (sizeX sizeY levels : Nat) : Int :=
  dzMaxLevel sizeX sizeY - ((levels : Int) - 1)

/-- Embeds the conversion and clamping of `get_dzi_tile` (lines 162-170):
`li_level = level - level_offset`, clamped to 0 below and to
`levels - 1` above. -/
def dzToCanonical (sizeX sizeY levels : Nat) (level : Int) : Int :=
  let li := level - levelOffset sizeX sizeY levels
  if li < 0 then 0
  else if (levels : Int) ≤ li then (levels : Int) - 1
  else li

end LevelMapper

namespace TileAssembler

/-- `BioformatsFileTileSource._maxSkippedLevels` (line 379). -/
def maxSkippedLevels : Nat := 3

/-- Embeds the level-adjustment loop of `getTile` (lines 572-576):
`seriesLevel = self.levels - 1 - z; scale = 1;
while seriesLevel >= resolutionCount: seriesLevel -= 1; scale *= 2`.
For `resolutionCount ≥ 1` the loop stops at a non-negative `seriesLevel`,
so the natural-number recursion below computes the same pair. -/
def adjustLevel (resolutionCount : Nat) : Nat → Nat → Nat × Nat
  | 0, scale => (0, scale)
  | sl + 1, scale =>
    if resolutionCount ≤ sl + 1 then adjustLevel resolutionCount sl (scale * 2)
    else (sl + 1, scale)

/-- Final `(seriesLevel, scale)` for a request at canonical level `z`. -/
def seriesScale (levels resolutionCount z : Nat) : Nat × Nat :=
  adjustLevel resolutionCount (levels - 1 - z) 1

/-- The accumulated downsample factor `scale` of `getTile`. -/
def scaleFor (levels resolutionCount z : Nat) : Nat :=
  (seriesScale levels resolutionCount z).2

/-- Which decode strategy `getTile` uses for a tile. -/
inductive TilePath where
  | composite
  | direct
  deriving DecidableEq

/-- Embeds the branch of `getTile` (line 583):
`if scale >= 2 ** self._maxSkippedLevels:` synthesize from finer tiles
(`_getTileFromEmptyLevel`), else decode native pixels directly. -/
def tilePath (levels resolutionCount z : Nat) : TilePath :=
  if 2 ^ maxSkippedLevels ≤ scaleFor levels resolutionCount z then .composite
  else .direct

/-- Sample types produced by the decoder
(`BioformatsReader._pixel_type_to_dtype`, lines 338-355). -/
inductive DType where
  | uint8
  | int8
  | uint16
  | int16
  | uint32
  | int32
  | float32
  | float64
  deriving DecidableEq

/-- Embeds `fill = 255 if tile.dtype == np.uint8 else 0` (line 601). -/
def fillValue : DType → Int
  | .uint8 => 255
  | _ => 0

/-- A decoded pixel buffer: a `rows × cols` array of samples.  `px` is
total; only indices below `rows`/`cols` are meaningful. -/
structure Buf where
  rows : Nat
  cols : Nat
  dty : DType
  px : Nat → Nat → Int

/-- Embeds the padding step of `getTile` (lines 597-605): if the buffer is
not exactly `tileHeight × tileWidth`, allocate a full-size buffer of the
fill value and copy the decoded region into its top-left corner. -/
def padTile (tileWidth tileHeight : Nat) (t : Buf) : Buf :=
  if t.rows = tileHeight ∧ t.cols = tileWidth then t
  else
    { rows := tileHeight, cols := tileWidth, dty := t.dty,
      px := fun i j =>
        if i < t.rows ∧ j < t.cols then t.px i j else fillValue t.dty }

/-- The number of samples `arr[::scale]` keeps from `n` samples:
`ceil(n / scale)`. -/
def sliceCount (n scale : Nat) : Nat :=
  (n + scale - 1) / scale

/-- Embeds the decoded-region shape of `getTile` (lines 578-595):
`width = min(tileWidth*scale, levelWidth - offsetx)` (and the analogous
height); an empty window skips the read and yields a `0 × 0` buffer
(line 592), and `tile[::scale, ::scale]` decimates by `scale`
(`sliceCount` also covers `scale = 1`, where it keeps every sample). -/
def decodedDims (tileWidth tileHeight scale : Nat)
    (levelW levelH offx offy : Int) : Nat × Nat :=
  let width : Int := min ((tileWidth * scale : Nat) : Int) (levelW - offx)
  let height : Int := min ((tileHeight * scale : Nat) : Int) (levelH - offy)
  if 0 < width ∧ 0 < height then
    (sliceCount height.toNat scale, sliceCount width.toNat scale)
  else (0, 0)

/-- Error conditions of a tile request. -/
inductive TileError where
  | addressOutOfRange
  | readFailure
  deriving DecidableEq

/-- Modelled from the spec: the range check `self._xyzInRange(x, y, z)`
called at the top of `getTile` (line 565) is inherited from the
`large_image` core package, whose sources are not part of this
repository.  Spec §4.4 step 1: validate `(x, y, canonicalLevel)` against
the tile grid for the resource.  The grid at canonical level `z` tiles
`sizeX × sizeY` pixels with tiles covering
`tileWidth * 2^(levels-1-z) × tileHeight * 2^(levels-1-z)` native pixels,
so column `x` is valid iff `x * tileWidth * 2^(levels-1-z) < sizeX`. -/
def xyzInRange (sizeX sizeY tileWidth tileHeight levels : Nat)
    (x y z : Int) : Prop :=
  0 ≤ x ∧ 0 ≤ y ∧ 0 ≤ z ∧ z < (levels : Int) ∧
    x * tileWidth * 2 ^ (levels - 1 - z.toNat) < (sizeX : Int) ∧
    y * tileHeight * 2 ^ (levels - 1 - z.toNat) < (sizeY : Int)

instance (sizeX sizeY tileWidth tileHeight levels : Nat) (x y z : Int) :
    Decidable (xyzInRange sizeX sizeY tileWidth tileHeight levels x y z) :=
  inferInstanceAs (Decidable (_ ∧ _))

/-- Modelled from the spec (§4.4 step 1, §7): out-of-range addresses fail
with the distinct `AddressOutOfRange` condition before any decode work;
in-range addresses proceed to the decode strategy chosen by `getTile`. -/
def getTileCheck (sizeX sizeY tileWidth tileHeight levels resolutionCount : Nat)
    (x y z : Int) : Except TileError TilePath :=
  if xyzInRange sizeX sizeY tileWidth tileHeight levels x y z then
    .ok (tilePath levels resolutionCount z.toNat)
  else .error .addressOutOfRange

end TileAssembler

namespace PathResolve

/-- A filesystem path: `absolute` records a leading separator, `segs` the
path components.  Paths are embedded already normalized (no `.`/`..`) and
symlink-free, so `Path.resolve()` is the identity on them. -/
structure PyPath where
  absolute : Bool
  segs : List String
  deriving DecidableEq

/-- Embeds `pathlib` joining `base / p`: when `p` is absolute the base is
discarded entirely. -/
def pyJoin (base p : PyPath) : PyPath :=
  if p.absolute then p
  else { absolute := base.absolute, segs := base.segs ++ p.segs }

/-- Embeds the f-string `f'{image_id}{ext}'` (`source_manager.py`
line 73): the extension is appended to the last component. -/
def appendExt (p : PyPath) (ext : String) : PyPath :=
  { p with segs := p.segs.dropLast ++ [p.segs.getLastD "" ++ ext] }

/-- Embeds `p.resolve().relative_to(dir.resolve())` (line 82): it succeeds
iff the directory's components are an initial segment of the path's. -/
def withinDir (dir p : PyPath) : Bool :=
  dir.segs.isPrefixOf p.segs

/-- `FileNotFoundError` from `_resolve_image_path` (line 87). -/
inductive ResolveError where
  | notFound
  deriving DecidableEq

/-- The extension-probing loop of `_resolve_image_path` (lines 72-75). -/
def findExtMatch (files : List PyPath) (imageDir imageId : PyPath) :
    List String → Option PyPath
  | [] => none
  | ext :: rest =>
    let cand := pyJoin imageDir (appendExt imageId ext)
    if cand ∈ files then some cand
    else findExtMatch files imageDir imageId rest

/-- Embeds `_resolve_image_path` (lines 50-87).  `files` is the set of
existing regular files.  Branch 1: `self._image_dir / image_id` if it is
an existing file.  Branch 2: the same with each allowed extension
appended.  Branch 3: an absolute `image_id` that exists, accepted only if
it resolves inside the image directory.  Otherwise `FileNotFoundError`. -/
def resolveImagePath (files : List PyPath) (exts : List String)
    (imageDir imageId : PyPath) : Except ResolveError PyPath :=
  let direct := pyJoin imageDir imageId
  if direct ∈ files then .ok direct
  else
    match findExtMatch files imageDir imageId exts with
    | some cand => .ok cand
    | none =>
      if imageId.absolute ∧ imageId ∈ files then
        if withinDir imageDir imageId then .ok imageId
        else .error .notFound
      else .error .notFound

end PathResolve

namespace SourceManager

theorem evictOldest_length_lt {cap : Nat} (hcap : 1 ≤ cap) :
    ∀ c : List Nat, (evictOldest cap c).length < cap := by
  intro c
  induction c with
  | nil => simpa [evictOldest] using hcap
  | cons k rest ih =>
      by_cases h : cap ≤ rest.length + 1
      · simpa [evictOldest, h] using ih
      · simp only [evictOldest, h, if_false, List.length_cons]
        omega

theorem evictOldest_suffix (cap : Nat) :
    ∀ c : List Nat, evictOldest cap c <:+ c := by
  intro c
  induction c with
  | nil => simp [evictOldest]
  | cons k rest ih =>
      by_cases h : cap ≤ rest.length + 1
      · simp only [evictOldest, h, if_true]
        exact ih.trans (List.suffix_cons k rest)
      · simp [evictOldest, h]

theorem acquire_length_le {cap : Nat} (hcap : 1 ≤ cap) (c : List Nat)
    (key : Nat) (hc : c.length ≤ cap) : (acquire cap c key).length ≤ cap := by
  by_cases h : key ∈ c
  · have hne : c ≠ [] := by rintro rfl; simp at h
    have : (c.erase key).length = c.length - 1 := List.length_erase_of_mem h
    simp only [acquire, h, if_true, touch, List.length_append, this,
      List.length_singleton]
    have : 1 ≤ c.length := List.length_pos.mpr hne
    omega
  · have := evictOldest_length_lt hcap c
    simp only [acquire, h, if_false, List.length_append, List.length_singleton]
    omega

theorem step_length_le {cap : Nat} (hcap : 1 ≤ cap) (c : List Nat) (op : Op)
    (hc : c.length ≤ cap) : (step cap c op).length ≤ cap := by
  cases op with
  | acquireKey k styled =>
      cases styled with
      | false => simpa [step] using acquire_length_le hcap c k hc
      | true => simpa [step] using hc
  | closeKey k =>
      simp only [step]
      have := List.length_erase_le k c
      omega
  | clearAll => simp [step]

theorem run_length_le {cap : Nat} (hcap : 1 ≤ cap) (ops : List Op)
    (c : List Nat) (hc : c.length ≤ cap) : (run cap c ops).length ≤ cap := by
  induction ops generalizing c with
  | nil => simpa [run] using hc
  | cons op rest ih =>
      have h1 := step_length_le hcap c op hc
      simpa [run, List.foldl_cons] using ih (step cap c op) h1

theorem acquire_getLast (cap : Nat) (c : List Nat) (key : Nat) :
    (acquire cap c key).getLast? = some key := by
  by_cases h : key ∈ c
  · simp [acquire, h, touch, List.getLast?_append]
  · simp [acquire, h, List.getLast?_append]

theorem runAcquires_opens_of_mem {cap : Nat} {s : MState} {key : Nat}
    (h : key ∈ s.cache) :
    ∀ n, (runAcquires cap s key n).opens = s.opens := by
  intro n
  induction n generalizing s with
  | zero => rfl
  | succ m ih =>
      have hmem : key ∈ (acquireCount cap s key).cache := by
        simp [acquireCount, h, touch]
      have hop : (acquireCount cap s key).opens = s.opens := by
        simp [acquireCount, h]
      simpa [runAcquires, hop] using ih hmem

theorem runAcquires_opens_once {cap : Nat} {s : MState} {key : Nat}
    (h : key ∉ s.cache) {n : Nat} (hn : 1 ≤ n) :
    (runAcquires cap s key n).opens = s.opens + 1 := by
  obtain ⟨m, rfl⟩ : ∃ m, n = m + 1 := ⟨n - 1, by omega⟩
  have hmem : key ∈ (acquireCount cap s key).cache := by
    simp [acquireCount, h]
  have hop : (acquireCount cap s key).opens = s.opens + 1 := by
    simp [acquireCount, h]
  simpa [runAcquires, hop] using runAcquires_opens_of_mem hmem m

theorem touch_nodup {c : List Nat} (h : c.Nodup) (key : Nat) :
    (touch c key).Nodup := by
  rw [touch, List.nodup_append]
  refine ⟨h.erase key, List.nodup_singleton key, ?_⟩
  intro a ha hb
  have : a = key := by simpa using hb
  subst this
  exact (h.mem_erase_iff.mp ha).1 rfl

theorem evictOldest_nodup {cap : Nat} {c : List Nat} (h : c.Nodup) :
    (evictOldest cap c).Nodup :=
  ((evictOldest_suffix cap c).sublist).nodup h

theorem acquire_nodup {cap : Nat} {c : List Nat} (h : c.Nodup) (key : Nat) :
    (acquire cap c key).Nodup := by
  by_cases hk : key ∈ c
  · simpa [acquire, hk] using touch_nodup h key
  · have h1 : (evictOldest cap c).Nodup := evictOldest_nodup h
    have h2 : key ∉ evictOldest cap c := fun hmem =>
      hk ((evictOldest_suffix cap c).sublist.subset hmem)
    rw [acquire, if_neg hk, List.nodup_append]
    refine ⟨h1, List.nodup_singleton key, ?_⟩
    intro a ha hb
    have : a = key := by simpa using hb
    subst this
    exact h2 ha

theorem step_nodup {cap : Nat} {c : List Nat} (h : c.Nodup) (op : Op) :
    (step cap c op).Nodup := by
  cases op with
  | acquireKey k styled =>
      cases styled with
      | false => simpa [step] using acquire_nodup h k
      | true => simpa [step] using h
  | closeKey k => simpa [step] using h.erase k
  | clearAll => simp [step]

end SourceManager

namespace FrameIndexer

theorem flatten_unflatten {sizeC sizeZ sizeT : Nat} (hC : 1 ≤ sizeC)
    (hZ : 1 ≤ sizeZ) (f : Nat)
    (hf : f < sizeC * sizeZ * sizeT) :
    flattenFrame sizeC sizeZ (unflattenFrame sizeC sizeZ sizeT f).1
      (unflattenFrame sizeC sizeZ sizeT f).2.1
      (unflattenFrame sizeC sizeZ sizeT f).2.2 = f := by
  have hC0 : 0 < sizeC := hC
  have hZ0 : 0 < sizeZ := hZ
  have hdivC : f / sizeC < sizeZ * sizeT := by
    rw [Nat.div_lt_iff_lt_mul hC0]
    calc f < sizeC * sizeZ * sizeT := hf
    _ = sizeZ * sizeT * sizeC := by ring
  have hdivCZ : f / sizeC / sizeZ < sizeT := by
    rw [Nat.div_lt_iff_lt_mul hZ0]
    calc f / sizeC < sizeZ * sizeT := hdivC
    _ = sizeT * sizeZ := by ring
  simp only [unflattenFrame, flattenFrame]
  rw [Nat.mod_eq_of_lt hdivCZ]
  rw [Nat.mod_add_div (f / sizeC) sizeZ]
  rw [Nat.mod_add_div f sizeC]

theorem unflatten_flatten {sizeC sizeZ sizeT : Nat} (c z t : Nat)
    (hc : c < sizeC) (hz : z < sizeZ) (ht : t < sizeT) :
    unflattenFrame sizeC sizeZ sizeT (flattenFrame sizeC sizeZ c z t) =
      (c, z, t) := by
  have hC0 : 0 < sizeC := Nat.lt_of_le_of_lt (Nat.zero_le c) hc
  simp only [unflattenFrame, flattenFrame]
  have h1 : (c + sizeC * (z + sizeZ * t)) % sizeC = c := by
    rw [Nat.add_mul_mod_self_left, Nat.mod_eq_of_lt hc]
  have h2 : (c + sizeC * (z + sizeZ * t)) / sizeC = z + sizeZ * t := by
    rw [Nat.add_mul_div_left _ _ hC0, Nat.div_eq_of_lt hc, Nat.zero_add]
  have hZ0 : 0 < sizeZ := Nat.lt_of_le_of_lt (Nat.zero_le z) hz
  have h3 : (z + sizeZ * t) % sizeZ = z := by
    rw [Nat.add_mul_mod_self_left, Nat.mod_eq_of_lt hz]
  have h4 : (z + sizeZ * t) / sizeZ = t := by
    rw [Nat.add_mul_div_left _ _ hZ0, Nat.div_eq_of_lt hz, Nat.zero_add]
  rw [h1, h2, h3, h4, Nat.mod_eq_of_lt ht]

theorem flatten_lt {sizeC sizeZ sizeT : Nat} (c z t : Nat)
    (hc : c < sizeC) (hz : z < sizeZ) (ht : t < sizeT) :
    flattenFrame sizeC sizeZ c z t < sizeC * sizeZ * sizeT := by
  simp only [flattenFrame]
  calc c + sizeC * (z + sizeZ * t)
      < sizeC + sizeC * (z + sizeZ * t) := by omega
    _ = sizeC * (1 + z + sizeZ * t) := by ring
    _ ≤ sizeC * (sizeZ + sizeZ * (sizeT - 1)) := by
        apply Nat.mul_le_mul_left
        have : sizeZ * t ≤ sizeZ * (sizeT - 1) := Nat.mul_le_mul_left _ (by omega)
        omega
    _ = sizeC * sizeZ * (1 + (sizeT - 1)) := by ring
    _ = sizeC * sizeZ * sizeT := by
        congr 1
        omega

end FrameIndexer

namespace PyramidGeometry

theorem int_clog_two_cast_real {q : Rat} (hq : 0 < q) :
    Int.clog 2 ((q : Real)) = Int.clog 2 q := by
  have hqR : (0 : Real) < (q : Real) := by exact_mod_cast hq
  apply le_antisymm
  · rw [← Int.le_zpow_iff_clog_le (by norm_num) hqR]
    have h := Int.self_le_zpow_clog (b := 2) (by norm_num) q
    have h2 : ((q : Rat) : Real) ≤ (((2 : Rat) ^ Int.clog 2 q : Rat) : Real) := by
      exact_mod_cast h
    rw [Rat.cast_zpow] at h2
    push_cast
    push_cast at h2
    exact h2
  · rw [← Int.le_zpow_iff_clog_le (by norm_num) hq]
    have h := Int.self_le_zpow_clog (b := 2) (by norm_num) ((q : Real))
    have h2 : (q : Real) ≤ ((2 : Real)) ^ Int.clog 2 ((q : Real)) := by
      push_cast at h
      exact h
    have h3 : ((q : Rat) : Real) ≤ (((2 : Rat) ^ Int.clog 2 ((q : Real)) : Rat) : Real) := by
      rw [Rat.cast_zpow]
      push_cast
      exact h2
    have h4 := Rat.cast_le (K := Real).mp h3
    push_cast at h4 ⊢
    exact h4

theorem codeLevels_eq_specLevels (x y w h : Nat) (hx : 0 < x) (hy : 0 < y)
    (hw : 0 < w) (hh : 0 < h) : codeLevels x y w h = specLevels x y w h := by
  have hr1 : (0 : Real) < (x : Real) / w := by positivity
  have hr2 : (0 : Real) < (y : Real) / h := by positivity
  have hq : (0 : Rat) < max ((x : Rat) / w) ((y : Rat) / h) := by
    have : (0 : Rat) < (x : Rat) / w := by positivity
    exact lt_max_of_lt_left this
  unfold codeLevels specLevels
  congr 1
  have hmax : max (Real.log ((x : Real) / w)) (Real.log ((y : Real) / h)) =
      Real.log (max ((x : Real) / w) ((y : Real) / h)) := by
    rcases le_total ((x : Real) / w) ((y : Real) / h) with hab | hab
    · rw [max_eq_right (Real.log_le_log hr1 hab), max_eq_right hab]
    · rw [max_eq_left (Real.log_le_log hr2 hab), max_eq_left hab]
  rw [hmax]
  have hlogb : Real.log (max ((x : Real) / w) ((y : Real) / h)) / Real.log 2 =
      Real.logb 2 (max ((x : Real) / w) ((y : Real) / h)) := rfl
  rw [hlogb, show (2 : Real) = ((2 : Nat) : Real) by norm_num]
  have hmpos : (0 : Real) < max ((x : Real) / w) ((y : Real) / h) :=
    lt_max_of_lt_left hr1
  rw [Real.ceil_logb_natCast hmpos.le]
  have hcast : max ((x : Real) / w) ((y : Real) / h) =
      ((max ((x : Rat) / w) ((y : Rat) / h) : Rat) : Real) := by
    push_cast
    ring_nf
  rw [hcast, int_clog_two_cast_real hq]

theorem specLevels_scenarioA : specLevels 50000 40000 256 256 = 9 := by
  unfold specLevels
  push_cast
  have hmax : max ((50000 : Rat) / 256) ((40000 : Rat) / 256) = 50000 / 256 := by
    rw [max_eq_left (by norm_num)]
  rw [hmax]
  have h1 : Int.clog 2 ((50000 : Rat) / 256) ≤ 8 := by
    rw [← Int.le_zpow_iff_clog_le (by norm_num) (by norm_num)]
    norm_num
  have h2 : ¬ Int.clog 2 ((50000 : Rat) / 256) ≤ 7 := by
    rw [← Int.le_zpow_iff_clog_le (by norm_num) (by norm_num)]
    norm_num
  omega

theorem initSource_ok_iff (x y l : Int) (readOk : Nat × Nat × Nat → Bool) :
    initSource x y l readOk = .ok () ↔
      1 ≤ l ∧ 0 < x ∧ 0 < y ∧ readOk (0, 0, l.toNat - 1) = true := by
  unfold initSource
  by_cases h1 : l < 1
  · simp [h1] <;> omega
  · by_cases h2 : x ≤ 0 ∨ y ≤ 0
    · simp [h1, h2] <;> omega
    · by_cases h3 : readOk (0, 0, l.toNat - 1) = true
      · simp [h1, h2, h3] <;> omega
      · simp [h1, h2, h3] <;> omega

theorem initSource_invalid (x y l : Int) (readOk : Nat × Nat × Nat → Bool)
    (hbad : x ≤ 0 ∨ y ≤ 0 ∨ l < 1) :
    ∃ e, initSource x y l readOk = .error e := by
  unfold initSource
  by_cases h1 : l < 1
  · exact ⟨.invalidLevels, by simp [h1]⟩
  · have h2 : x ≤ 0 ∨ y ≤ 0 := by omega
    exact ⟨.invalidSize, by simp [h1, h2]⟩

end PyramidGeometry

namespace LevelMapper

theorem dzMaxLevelR_eq_dzMaxLevel (sizeX sizeY : Nat) :
    dzMaxLevelR sizeX sizeY = dzMaxLevel sizeX sizeY := by
  unfold dzMaxLevelR dzMaxLevel
  by_cases hpos : 0 < max sizeX sizeY
  · simp only [hpos, if_true]
    rw [show (2 : Real) = ((2 : Nat) : Real) by norm_num]
    rw [Real.ceil_logb_natCast (by positivity)]
    rw [Int.clog_natCast]
  · simp [hpos]

theorem dzMaxLevel_of_le_one (sizeX sizeY : Nat)
    (hle : max sizeX sizeY ≤ 1) : dzMaxLevel sizeX sizeY = 0 := by
  unfold dzMaxLevel
  by_cases hpos : 0 < max sizeX sizeY
  · have h1 : max sizeX sizeY = 1 := by omega
    simp [hpos, h1, Nat.clog_one_right]
  · simp [hpos]

theorem dzToCanonical_eq_clamp (sizeX sizeY levels : Nat) (level : Int)
    (hlev : 1 ≤ levels) :
    dzToCanonical sizeX sizeY levels level =
      max 0 (min (level - levelOffset sizeX sizeY levels) ((levels : Int) - 1)) := by
  unfold dzToCanonical
  have hl : (1 : Int) ≤ (levels : Int) := by exact_mod_cast hlev
  by_cases h1 : level - levelOffset sizeX sizeY levels < 0
  · simp only [h1, if_true]
    omega
  · by_cases h2 : (levels : Int) ≤ level - levelOffset sizeX sizeY levels
    · simp only [h1, h2, if_true, if_false]
      omega
    · simp only [h1, h2, if_false]
      omega

theorem dzToCanonical_mem (sizeX sizeY levels : Nat) (level : Int)
    (hlev : 1 ≤ levels) :
    0 ≤ dzToCanonical sizeX sizeY levels level ∧
      dzToCanonical sizeX sizeY levels level < (levels : Int) := by
  have h := dzToCanonical_eq_clamp sizeX sizeY levels level hlev
  have hl : (1 : Int) ≤ (levels : Int) := by exact_mod_cast hlev
  rw [h]
  constructor
  · exact le_max_left 0 _
  · have : min (level - levelOffset sizeX sizeY levels) ((levels : Int) - 1) ≤
        (levels : Int) - 1 := min_le_right _ _
    omega

theorem dzToCanonical_below (sizeX sizeY levels : Nat) (level : Int)
    (h : level - levelOffset sizeX sizeY levels < 0) :
    dzToCanonical sizeX sizeY levels level = 0 := by
  unfold dzToCanonical
  simp [h]

theorem dzToCanonical_above (sizeX sizeY levels : Nat) (level : Int)
    (h : (levels : Int) ≤ level - levelOffset sizeX sizeY levels) :
    dzToCanonical sizeX sizeY levels level = (levels : Int) - 1 := by
  unfold dzToCanonical
  have h1 : ¬ level - levelOffset sizeX sizeY levels < 0 := by
    have : (0 : Int) ≤ (levels : Int) := Int.natCast_nonneg levels
    omega
  simp [h1, h]

theorem dzToCanonical_inside (sizeX sizeY levels : Nat) (level : Int)
    (h0 : 0 ≤ level - levelOffset sizeX sizeY levels)
    (h1 : level - levelOffset sizeX sizeY levels < (levels : Int)) :
    dzToCanonical sizeX sizeY levels level =
      level - levelOffset sizeX sizeY levels := by
  unfold dzToCanonical
  have ha : ¬ level - levelOffset sizeX sizeY levels < 0 := by omega
  have hb : ¬ (levels : Int) ≤ level - levelOffset sizeX sizeY levels := by omega
  simp [ha, hb]

end LevelMapper

/-- C1: for a handle cache constructed with capacity ≥ 1, the number of
cached entries never exceeds the capacity after any sequence of acquire
(`get_source`), `close_source`, and `clear` operations; an acquired key is
promoted to the most-recently-used position (the back of the order), the
cache surviving an eviction pass is a suffix of the previous order (so
eviction removes least-recently-used entries first, from the front), and
acquiring 10 distinct unstyled keys at capacity 5 leaves exactly the 5
most recently acquired keys. -/
theorem C1_cache_bounded_lru :
    (∀ (cap : Nat) (c : List Nat) (ops : List SourceManager.Op),
      1 ≤ cap → c.length ≤ cap → (SourceManager.run cap c ops).length ≤ cap) ∧
    (∀ (cap : Nat) (c : List Nat) (key : Nat),
      (SourceManager.acquire cap c key).getLast? = some key) ∧
    (∀ (cap : Nat) (c : List Nat), SourceManager.evictOldest cap c <:+ c) ∧
    SourceManager.run 5 []
      ((List.range 10).map fun k => SourceManager.Op.acquireKey k false) =
      [5, 6, 7, 8, 9] := by
  refine ⟨fun cap c ops h1 h2 => SourceManager.run_length_le h1 ops c h2,
    SourceManager.acquire_getLast, SourceManager.evictOldest_suffix, by decide⟩

/-- Witness for C1 at capacity 3 and a concrete operation sequence. -/
theorem C1_cache_bounded_lru_witness :
    (SourceManager.run 3 [0]
      [SourceManager.Op.acquireKey 1 false, SourceManager.Op.closeKey 0]).length ≤ 3 :=
  C1_cache_bounded_lru.1 3 [0]
    [SourceManager.Op.acquireKey 1 false, SourceManager.Op.closeKey 0]
    (by decide) (by decide)

/-- C4: with all dimension sizes normalized to at least 1, decomposing a
flat frame index `f < sizeC*sizeZ*sizeT` as in `getTile` and recomposing
it with `f = c + sizeC*(z + sizeZ*t)` yields `f` again, and the two maps
are mutually inverse between `[0, sizeC*sizeZ*sizeT)` and the box of
`(c, z, t)` triples, hence a bijection over that range. -/
theorem C4_frame_index_bijection :
    (∀ n : Int, 1 ≤ FrameIndexer.normalizeDim n) ∧
    (∀ n : Int, n < 1 → FrameIndexer.normalizeDim n = 1) ∧
    (∀ sizeC sizeZ sizeT f : Nat, 1 ≤ sizeC → 1 ≤ sizeZ → 1 ≤ sizeT →
      f < sizeC * sizeZ * sizeT →
      FrameIndexer.flattenFrame sizeC sizeZ
        (FrameIndexer.unflattenFrame sizeC sizeZ sizeT f).1
        (FrameIndexer.unflattenFrame sizeC sizeZ sizeT f).2.1
        (FrameIndexer.unflattenFrame sizeC sizeZ sizeT f).2.2 = f) ∧
    (∀ sizeC sizeZ sizeT c z t : Nat, c < sizeC → z < sizeZ → t < sizeT →
      FrameIndexer.unflattenFrame sizeC sizeZ sizeT
        (FrameIndexer.flattenFrame sizeC sizeZ c z t) = (c, z, t) ∧
      FrameIndexer.flattenFrame sizeC sizeZ c z t < sizeC * sizeZ * sizeT) := by
  refine ⟨?_, ?_, ?_, ?_⟩
  · intro n
    unfold FrameIndexer.normalizeDim
    by_cases h : n < 1
    · simp [h]
    · simp only [h, if_false]
      omega
  · intro n h
    simp [FrameIndexer.normalizeDim, h]
  · intro sizeC sizeZ sizeT f hC hZ _ hf
    exact FrameIndexer.flatten_unflatten hC hZ f hf
  · intro sizeC sizeZ sizeT c z t hc hz ht
    exact ⟨FrameIndexer.unflatten_flatten c z t hc hz ht,
      FrameIndexer.flatten_lt c z t hc hz ht⟩

/-- Witness for C4 at the spec's Scenario B:
`sizeC=3, sizeZ=5, sizeT=2, frame=17` decomposes to `(c,z,t) = (2,0,1)`
and recomposes to 17. -/
theorem C4_frame_index_bijection_witness :
    FrameIndexer.unflattenFrame 3 5 2 17 = (2, 0, 1) ∧
    FrameIndexer.flattenFrame 3 5
      (FrameIndexer.unflattenFrame 3 5 2 17).1
      (FrameIndexer.unflattenFrame 3 5 2 17).2.1
      (FrameIndexer.unflattenFrame 3 5 2 17).2.2 = 17 :=
  ⟨by decide,
    C4_frame_index_bijection.2.2.1 3 5 2 17 (by decide) (by decide)
      (by decide) (by decide)⟩

/-- C9: with every `get_source` body serialized by the cache-wide lock
into an atomic step, any N ≥ 1 concurrent acquires of the same uncached
unstyled key invoke the backend open exactly once; and every cache
operation preserves distinctness of the cached keys, so at most one
handle per key is ever held in the cache. -/
theorem C9_single_open_per_key :
    (∀ (cap : Nat) (s : SourceManager.MState) (key n : Nat),
      1 ≤ n → key ∉ s.cache →
      (SourceManager.runAcquires cap s key n).opens = s.opens + 1) ∧
    (∀ (cap : Nat) (c : List Nat) (op : SourceManager.Op),
      c.Nodup → (SourceManager.step cap c op).Nodup) := by
  exact ⟨fun cap s key n hn h => SourceManager.runAcquires_opens_once h hn,
    fun cap c op h => SourceManager.step_nodup h op⟩

/-- Witness for C9: three concurrent acquires of key 4 on an empty cache
of capacity 2 open the backend exactly once. -/
theorem C9_single_open_per_key_witness :
    (SourceManager.runAcquires 2 ⟨[], 0⟩ 4 3).opens = 0 + 1 :=
  C9_single_open_per_key.1 2 ⟨[], 0⟩ 4 3 (by decide) (by decide)

/-- C10 (code bug): `_resolve_image_path` resolves the absolute image id
`/etc/passwd` against image directory `/data/images` to `/etc/passwd`
through its first lookup branch, because `pathlib`'s `/` discards the
base when the right operand is absolute — the path lies outside the
image directory, yet no `FileNotFoundError` is raised, bypassing the
security check of the third branch. -/
theorem C10_absolute_path_escapes_image_dir :
    PathResolve.resolveImagePath
      [⟨true, ["etc", "passwd"]⟩] [".tiff"]
      ⟨true, ["data", "images"]⟩ ⟨true, ["etc", "passwd"]⟩ =
      .ok ⟨true, ["etc", "passwd"]⟩ ∧
    PathResolve.withinDir ⟨true, ["data", "images"]⟩
      ⟨true, ["etc", "passwd"]⟩ = false := by
  refine ⟨?_, by decide⟩
  rfl

namespace TileAssembler

theorem adjustLevel_eq {rc : Nat} (hrc : 1 ≤ rc) :
    ∀ sl scale, adjustLevel rc sl scale =
      if rc ≤ sl then (rc - 1, scale * 2 ^ (sl - (rc - 1))) else (sl, scale) := by
  intro sl
  induction sl with
  | zero =>
      intro scale
      rw [adjustLevel, if_neg (by omega)]
  | succ k ih =>
      intro scale
      by_cases h : rc ≤ k + 1
      · rw [adjustLevel, if_pos h, ih (scale * 2), if_pos h]
        by_cases h2 : rc ≤ k
        · rw [if_pos h2]
          have hexp : k + 1 - (rc - 1) = (k - (rc - 1)) + 1 := by omega
          rw [hexp, pow_succ]
          congr 1
          ring
        · have h3 : rc - 1 = k := by omega
          have h4 : k + 1 - (rc - 1) = 1 := by omega
          rw [if_neg h2, h4, pow_one, h3]
      · rw [adjustLevel, if_neg h, if_neg h]

theorem scaleFor_eq (levels rc z : Nat) (hrc : 1 ≤ rc) :
    scaleFor levels rc z =
      if rc ≤ levels - 1 - z then 2 ^ (levels - 1 - z - (rc - 1)) else 1 := by
  unfold scaleFor seriesScale
  rw [adjustLevel_eq hrc]
  by_cases h : rc ≤ levels - 1 - z
  · simp [h]
  · simp [h]

theorem tilePath_composite_iff (levels rc z : Nat) (hrc : 1 ≤ rc) :
    tilePath levels rc z = .composite ↔
      (rc - 1) + maxSkippedLevels ≤ levels - 1 - z := by
  unfold tilePath
  rw [scaleFor_eq levels rc z hrc]
  by_cases h : rc ≤ levels - 1 - z
  · rw [if_pos h]
    by_cases h2 : 2 ^ maxSkippedLevels ≤ 2 ^ (levels - 1 - z - (rc - 1))
    · have h3 := (Nat.pow_le_pow_iff_right (by norm_num : 1 < 2)).mp h2
      simp only [h2, if_true, true_iff]
      unfold maxSkippedLevels at h3 ⊢
      omega
    · have h3 : ¬ maxSkippedLevels ≤ levels - 1 - z - (rc - 1) := fun hle =>
        h2 ((Nat.pow_le_pow_iff_right (by norm_num : 1 < 2)).mpr hle)
      simp only [h2, if_false]
      unfold maxSkippedLevels at h3 ⊢
      constructor
      · intro hc
        cases hc
      · intro hc
        omega
  · rw [if_neg h]
    have h2 : ¬ (2 : Nat) ^ maxSkippedLevels ≤ 1 := by
      unfold maxSkippedLevels
      norm_num
    simp only [h2, if_false]
    constructor
    · intro hc
      cases hc
    · intro hc
      unfold maxSkippedLevels at hc
      omega

theorem sliceCount_le {n s m : Nat} (hs : 1 ≤ s) (hn : n ≤ m * s) :
    sliceCount n s ≤ m := by
  unfold sliceCount
  have key : n + s - 1 < (m + 1) * s := by
    rw [Nat.succ_mul]
    omega
  have h2 := (Nat.div_lt_iff_lt_mul (show 0 < s by omega)).mpr key
  omega

theorem decodedDims_le (tw th scale : Nat) (levelW levelH offx offy : Int)
    (hs : 1 ≤ scale) :
    (decodedDims tw th scale levelW levelH offx offy).1 ≤ th ∧
      (decodedDims tw th scale levelW levelH offx offy).2 ≤ tw := by
  unfold decodedDims
  by_cases hcond : 0 < min ((tw * scale : Nat) : Int) (levelW - offx) ∧
      0 < min ((th * scale : Nat) : Int) (levelH - offy)
  · simp only [hcond, and_self, if_true]
    constructor
    · apply sliceCount_le hs
      have h1 : min ((th * scale : Nat) : Int) (levelH - offy) ≤
          ((th * scale : Nat) : Int) := min_le_left _ _
      exact Int.toNat_le.mpr h1
    · apply sliceCount_le hs
      have h1 : min ((tw * scale : Nat) : Int) (levelW - offx) ≤
          ((tw * scale : Nat) : Int) := min_le_left _ _
      exact Int.toNat_le.mpr h1
  · simp only [hcond, if_false]
    exact ⟨Nat.zero_le th, Nat.zero_le tw⟩

end TileAssembler

/-- C2: for every successfully opened resource the computed level count
equals `ceil(log2(max(sizeX/tileWidth, sizeY/tileHeight))) + 1` with real
division inside the logarithm (the code's
`ceil(max(log(sizeX/tileWidth), log(sizeY/tileHeight)) / log 2) + 1`
equals the spec formula on all positive geometries) and is ≥ 1; a
geometry with `sizeX ≤ 0`, `sizeY ≤ 0`, or `levels < 1` fails
construction with an error, so no source object is created.  On the
spec's Scenario A geometry the formula yields 9. -/
theorem C2_levels_formula_and_validation :
    (∀ x y w h : Nat, 0 < x → 0 < y → 0 < w → 0 < h →
      PyramidGeometry.codeLevels x y w h = PyramidGeometry.specLevels x y w h) ∧
    (∀ (x y l : Int) (readOk : Nat × Nat × Nat → Bool),
      PyramidGeometry.initSource x y l readOk = .ok () →
      1 ≤ l ∧ 0 < x ∧ 0 < y) ∧
    (∀ (x y l : Int) (readOk : Nat × Nat × Nat → Bool),
      (x ≤ 0 ∨ y ≤ 0 ∨ l < 1) →
      ∃ e, PyramidGeometry.initSource x y l readOk = .error e) ∧
    PyramidGeometry.specLevels 50000 40000 256 256 = 9 := by
  refine ⟨PyramidGeometry.codeLevels_eq_specLevels, ?_,
    PyramidGeometry.initSource_invalid, PyramidGeometry.specLevels_scenarioA⟩
  intro x y l readOk hok
  have h := (PyramidGeometry.initSource_ok_iff x y l readOk).mp hok
  exact ⟨h.1, h.2.1, h.2.2.1⟩

/-- Witness for C2 on the Scenario A geometry: the code's level formula
agrees with the spec formula at `50000 × 40000` with `256 × 256` tiles. -/
theorem C2_levels_formula_and_validation_witness :
    PyramidGeometry.codeLevels 50000 40000 256 256 =
      PyramidGeometry.specLevels 50000 40000 256 256 :=
  C2_levels_formula_and_validation.1 50000 40000 256 256
    (by norm_num) (by norm_num) (by norm_num) (by norm_num)

/-- C3: every buffer produced by the padding step of `getTile` has shape
exactly `tileHeight × tileWidth`; a smaller decoded region is copied into
the top-left corner, the rest is filled with 255 for `uint8` samples and
0 for every other sample type, and the decoded region (clipped to the
image edge and decimated by `scale`) never exceeds `tileHeight ×
tileWidth`, so padding only extends and never crops. -/
theorem C3_tile_padding_shape_and_fill :
    (∀ (tw th : Nat) (t : TileAssembler.Buf),
      (TileAssembler.padTile tw th t).rows = th ∧
      (TileAssembler.padTile tw th t).cols = tw) ∧
    (∀ (tw th : Nat) (t : TileAssembler.Buf), ∀ i j, i < t.rows → j < t.cols →
      (TileAssembler.padTile tw th t).px i j = t.px i j) ∧
    (∀ (tw th : Nat) (t : TileAssembler.Buf),
      ¬(t.rows = th ∧ t.cols = tw) → ∀ i j, ¬(i < t.rows ∧ j < t.cols) →
      (TileAssembler.padTile tw th t).px i j = TileAssembler.fillValue t.dty) ∧
    TileAssembler.fillValue .uint8 = 255 ∧
    (∀ d : TileAssembler.DType, d ≠ .uint8 → TileAssembler.fillValue d = 0) ∧
    (∀ (tw th scale : Nat) (levelW levelH offx offy : Int), 1 ≤ scale →
      (TileAssembler.decodedDims tw th scale levelW levelH offx offy).1 ≤ th ∧
      (TileAssembler.decodedDims tw th scale levelW levelH offx offy).2 ≤ tw) := by
  refine ⟨?_, ?_, ?_, rfl, ?_, TileAssembler.decodedDims_le⟩
  · intro tw th t
    unfold TileAssembler.padTile
    by_cases hc : t.rows = th ∧ t.cols = tw
    · rw [if_pos hc]
      exact ⟨hc.1, hc.2⟩
    · rw [if_neg hc]
      exact ⟨rfl, rfl⟩
  · intro tw th t i j hi hj
    unfold TileAssembler.padTile
    by_cases hc : t.rows = th ∧ t.cols = tw
    · rw [if_pos hc]
    · rw [if_neg hc]
      dsimp only
      rw [if_pos ⟨hi, hj⟩]
  · intro tw th t hc i j hout
    unfold TileAssembler.padTile
    rw [if_neg hc]
    dsimp only
    rw [if_neg hout]
  · intro d hd
    cases d <;> first | exact absurd rfl hd | rfl

/-- Witness for C3: a 2×3 `uint8` region padded into a 4×4 tile keeps its
top-left pixels, and a clipped decoded window decimated by 2 fits in the
tile. -/
theorem C3_tile_padding_shape_and_fill_witness :
    (TileAssembler.padTile 4 4 ⟨2, 3, .uint8, fun _ _ => 7⟩).px 1 2 =
      (⟨2, 3, .uint8, fun _ _ => 7⟩ : TileAssembler.Buf).px 1 2 ∧
    (TileAssembler.decodedDims 256 256 2 300 300 0 0).1 ≤ 256 :=
  ⟨C3_tile_padding_shape_and_fill.2.1 4 4 ⟨2, 3, .uint8, fun _ _ => 7⟩ 1 2
      (by decide) (by decide),
    (C3_tile_padding_shape_and_fill.2.2.2.2.2 256 256 2 300 300 0 0
      (by decide)).1⟩

/-- C5: the DeepZoom route computes
`externalMaxLevel = ceil(log2(max(sizeX, sizeY)))` (0 when the maximum
dimension is ≤ 1) — the float formula agrees with the exact ceiling log —
and `levelOffset = externalMaxLevel - (levels - 1)`, and maps an external
level to `externalLevel - levelOffset` clamped into `[0, levels - 1]`:
levels mapping below 0 are served from canonical level 0 and levels
mapping at or above `levels` from canonical level `levels - 1`. -/
theorem C5_deepzoom_level_conversion :
    (∀ sizeX sizeY : Nat,
      LevelMapper.dzMaxLevelR sizeX sizeY = LevelMapper.dzMaxLevel sizeX sizeY) ∧
    (∀ sizeX sizeY : Nat, max sizeX sizeY ≤ 1 →
      LevelMapper.dzMaxLevel sizeX sizeY = 0) ∧
    (∀ (sizeX sizeY levels : Nat) (level : Int), 1 ≤ levels →
      LevelMapper.dzToCanonical sizeX sizeY levels level =
        max 0 (min (level - LevelMapper.levelOffset sizeX sizeY levels)
          ((levels : Int) - 1)) ∧
      0 ≤ LevelMapper.dzToCanonical sizeX sizeY levels level ∧
      LevelMapper.dzToCanonical sizeX sizeY levels level < (levels : Int)) ∧
    (∀ (sizeX sizeY levels : Nat) (level : Int),
      (level - LevelMapper.levelOffset sizeX sizeY levels < 0 →
        LevelMapper.dzToCanonical sizeX sizeY levels level = 0) ∧
      ((levels : Int) ≤ level - LevelMapper.levelOffset sizeX sizeY levels →
        LevelMapper.dzToCanonical sizeX sizeY levels level =
          (levels : Int) - 1)) := by
  refine ⟨LevelMapper.dzMaxLevelR_eq_dzMaxLevel,
    LevelMapper.dzMaxLevel_of_le_one, ?_, ?_⟩
  · intro sizeX sizeY levels level hlev
    exact ⟨LevelMapper.dzToCanonical_eq_clamp sizeX sizeY levels level hlev,
      LevelMapper.dzToCanonical_mem sizeX sizeY levels level hlev⟩
  · intro sizeX sizeY levels level
    exact ⟨LevelMapper.dzToCanonical_below sizeX sizeY levels level,
      LevelMapper.dzToCanonical_above sizeX sizeY levels level⟩

/-- Witness for C5 at a concrete image: `sizeX = 50000`, `sizeY = 40000`,
9 canonical levels, external level 20 maps into `[0, 8]`. -/
theorem C5_deepzoom_level_conversion_witness :
    0 ≤ LevelMapper.dzToCanonical 50000 40000 9 20 ∧
    LevelMapper.dzToCanonical 50000 40000 9 20 < (9 : Int) :=
  (C5_deepzoom_level_conversion.2.2.1 50000 40000 9 20 (by decide)).2

/-- C6: a routed tile request whose canonical level would fall beyond
`levels - 1` is clamped to `levels - 1` by the DeepZoom route and (with
the tile coordinates in range at the clamped level) never fails the
address range check, while a request whose `x` lies beyond the tile grid
width at any level fails with the distinct address-out-of-range
condition. -/
theorem C6_level_clamped_but_x_out_of_range_raises :
    (∀ (sizeX sizeY tw th levels resCount : Nat) (level : Int),
      1 ≤ levels → 1 ≤ sizeX → 1 ≤ sizeY →
      TileAssembler.getTileCheck sizeX sizeY tw th levels resCount 0 0
        (LevelMapper.dzToCanonical sizeX sizeY levels level) ≠
        .error .addressOutOfRange) ∧
    (∀ (sizeX sizeY levels : Nat) (level : Int),
      (levels : Int) ≤ level - LevelMapper.levelOffset sizeX sizeY levels →
      LevelMapper.dzToCanonical sizeX sizeY levels level =
        (levels : Int) - 1) ∧
    (∀ (sizeX sizeY tw th levels resCount : Nat) (x y z : Int),
      (sizeX : Int) ≤ x * tw * 2 ^ (levels - 1 - z.toNat) →
      TileAssembler.getTileCheck sizeX sizeY tw th levels resCount x y z =
        .error .addressOutOfRange) := by
  refine ⟨?_, ?_, ?_⟩
  · intro sizeX sizeY tw th levels resCount level hlev hsx hsy
    have hm := LevelMapper.dzToCanonical_mem sizeX sizeY levels level hlev
    have hrange : TileAssembler.xyzInRange sizeX sizeY tw th levels 0 0
        (LevelMapper.dzToCanonical sizeX sizeY levels level) := by
      unfold TileAssembler.xyzInRange
      refine ⟨le_refl 0, le_refl 0, hm.1, hm.2, ?_, ?_⟩
      · have hx : (0 : Int) < (sizeX : Int) := by exact_mod_cast hsx
        simpa using hx
      · have hy : (0 : Int) < (sizeY : Int) := by exact_mod_cast hsy
        simpa using hy
    unfold TileAssembler.getTileCheck
    rw [if_pos hrange]
    simp
  · intro sizeX sizeY levels level h
    exact LevelMapper.dzToCanonical_above sizeX sizeY levels level h
  · intro sizeX sizeY tw th levels resCount x y z hx
    have hnot : ¬ TileAssembler.xyzInRange sizeX sizeY tw th levels x y z := by
      unfold TileAssembler.xyzInRange
      rintro ⟨-, -, -, -, h5, -⟩
      exact absurd h5 (not_lt.mpr hx)
    unfold TileAssembler.getTileCheck
    rw [if_neg hnot]

/-- Witness for C6: a 1000×1000 image with 2 canonical levels and 256
tiles; external level 100 is clamped and served, while `x = 4` at the
finest level is out of range. -/
theorem C6_level_clamped_but_x_out_of_range_raises_witness :
    TileAssembler.getTileCheck 1000 1000 256 256 2 1 0 0
      (LevelMapper.dzToCanonical 1000 1000 2 100) ≠
      .error .addressOutOfRange ∧
    TileAssembler.getTileCheck 1000 1000 256 256 2 1 4 0 1 =
      .error .addressOutOfRange :=
  ⟨C6_level_clamped_but_x_out_of_range_raises.1 1000 1000 256 256 2 1 100
      (by decide) (by decide) (by decide),
    C6_level_clamped_but_x_out_of_range_raises.2.2 1000 1000 256 256 2 1 4 0 1
      (by decide)⟩

/-- C7 counterexample: at `levels = 4`, `resolutionCount = 1`, canonical
level `z = 0`, the accumulated scale is exactly `2^maxSkippedLevels = 8`
— it does not exceed the bound — yet `getTile` takes the composite
(`_getTileFromEmptyLevel`) path instead of decoding native pixels
directly, because the code branches on `scale >= 2 ** _maxSkippedLevels`,
not on strict excess. -/
theorem C7_scale_at_bound_composites :
    TileAssembler.tilePath 4 1 0 = .composite ∧
    TileAssembler.scaleFor 4 1 0 = 2 ^ TileAssembler.maxSkippedLevels :=
  ⟨rfl, rfl⟩

/-- C7 (amended): `getTile` decodes native pixels directly (followed by
nearest-neighbor decimation when `scale > 1`) exactly when the
accumulated scale is strictly below `2^maxSkippedLevels = 8`, and
synthesizes the tile from finer tiles exactly when the scale reaches or
exceeds that bound; the scale is `2^((levels-1-z) - (resolutionCount-1))`
when the native pyramid is exhausted and 1 otherwise. -/
theorem C7_composite_iff_scale_reaches_bound :
    ∀ levels resCount z : Nat, 1 ≤ resCount →
      (TileAssembler.tilePath levels resCount z = .direct ↔
        TileAssembler.scaleFor levels resCount z <
          2 ^ TileAssembler.maxSkippedLevels) ∧
      (TileAssembler.tilePath levels resCount z = .composite ↔
        2 ^ TileAssembler.maxSkippedLevels ≤
          TileAssembler.scaleFor levels resCount z) ∧
      (TileAssembler.tilePath levels resCount z = .composite ↔
        (resCount - 1) + TileAssembler.maxSkippedLevels ≤ levels - 1 - z) ∧
      TileAssembler.scaleFor levels resCount z =
        (if resCount ≤ levels - 1 - z then
          2 ^ (levels - 1 - z - (resCount - 1)) else 1) := by
  intro levels resCount z hrc
  refine ⟨?_, ?_, TileAssembler.tilePath_composite_iff levels resCount z hrc,
    TileAssembler.scaleFor_eq levels resCount z hrc⟩
  · unfold TileAssembler.tilePath
    by_cases h : 2 ^ TileAssembler.maxSkippedLevels ≤
        TileAssembler.scaleFor levels resCount z
    · simp only [h, if_true]
      constructor
      · intro hc
        cases hc
      · intro hc
        omega
    · simp only [h, if_false, true_iff]
      omega
  · unfold TileAssembler.tilePath
    by_cases h : 2 ^ TileAssembler.maxSkippedLevels ≤
        TileAssembler.scaleFor levels resCount z
    · simp [h]
    · simp only [h, if_false, iff_false]
      intro hc
      cases hc

/-- Witness for C7 (amended) at `levels = 9`, `resolutionCount = 2`,
`z = 1`: the scale is `2^6 = 64 ≥ 8`, so the tile is synthesized. -/
theorem C7_composite_iff_scale_reaches_bound_witness :
    TileAssembler.tilePath 9 2 1 = .composite ↔
      (2 - 1) + TileAssembler.maxSkippedLevels ≤ 9 - 1 - 1 :=
  (C7_composite_iff_scale_reaches_bound 9 2 1 (by decide)).2.2.1

/-- C8 counterexample: a resource whose decoder can read every tile
except those at the coarsest canonical level (`z = 0`) still constructs
successfully, because `__init__` validates with `getTile(0, 0, levels-1)`
— a read at the finest canonical level, not the coarsest one. -/
theorem C8_unreadable_coarsest_level_still_constructs :
    PyramidGeometry.initSource 100 100 3 (fun a => decide (a.2.2 ≠ 0)) =
      .ok () ∧
    (fun (a : Nat × Nat × Nat) => decide (a.2.2 ≠ 0)) (0, 0, 0) = false :=
  ⟨rfl, rfl⟩

/-- C8 (amended): opening a resource performs a validation read of the
single tile `(0, 0, levels-1)` at the finest canonical level; if that
read fails (or the geometry is invalid) construction fails with an error
and no source object is created, and a failed backend open leaves the
handle cache unchanged, so the broken source is never cached. -/
theorem C8_validation_read_at_finest_level :
    (∀ (x y l : Int) (readOk : Nat × Nat × Nat → Bool),
      PyramidGeometry.initSource x y l readOk = .ok () ↔
        1 ≤ l ∧ 0 < x ∧ 0 < y ∧ readOk (0, 0, l.toNat - 1) = true) ∧
    (∀ (x y l : Int) (readOk : Nat × Nat × Nat → Bool),
      1 ≤ l → 0 < x → 0 < y → readOk (0, 0, l.toNat - 1) = false →
      PyramidGeometry.initSource x y l readOk = .error .readFailure) ∧
    (∀ (cap : Nat) (c : List Nat) (key : Nat), key ∉ c →
      SourceManager.getSourceFallible cap c key false = .error ()) := by
  refine ⟨PyramidGeometry.initSource_ok_iff, ?_, ?_⟩
  · intro x y l readOk hl hx hy hread
    unfold PyramidGeometry.initSource
    have h1 : ¬ l < 1 := by omega
    have h2 : ¬ (x ≤ 0 ∨ y ≤ 0) := by omega
    simp [h1, h2, hread]
  · intro cap c key hk
    unfold SourceManager.getSourceFallible
    simp [hk]

/-- Witness for C8 (amended): an always-failing reader on a valid
10×10, 3-level geometry yields the read-failure error. -/
theorem C8_validation_read_at_finest_level_witness :
    PyramidGeometry.initSource 10 10 3 (fun _ => false) =
      .error .readFailure :=
  C8_validation_read_at_finest_level.2.1 10 10 3 (fun _ => false)
    (by decide) (by decide) (by decide) rfl
